import Mathlib

/-!
Shallow embedding of `src/lib/toggl/ApiManager.ts` (classes `TogglAPI` and
`TogglService`, plus the free function `isTagsChanged`) from the
obsidian-toggl-integration repository, together with proofs about the
claims of its specification.

JavaScript conventions modelled here:
* `undefined`/`null` fields become `Option`; JS loose equality `!=`
  identifies `undefined` with `null`, so both map to `none`.
* JS truthiness of a string field (`if (timeEntry.stop)`) is: absent or
  empty string is falsy, any other string is truthy.
* `curr.wid != this.workspaceId` compares a numeric field with the numeric
  string from settings; loose equality coerces the string to a number, so
  both sides are modelled as `Nat`.
-/

namespace Toggl

/-- One record of a Toggl detailed report, restricted to the fields the
code reads: the entry `id` and its duration `dur` (milliseconds). -/
structure DetailedEntry where
  id : Nat
  dur : Int
  deriving DecidableEq, Repr

/-- The `Report<Detailed>` shape assembled by `getDetailedReport`. -/
structure ReportDetailed where
  total_count : Nat
  total_grand : Int
  data : List DetailedEntry
  deriving DecidableEq, Repr

/-- The predicate of the dedup filter in `getDetailedReport`:
`index === self.findIndex((el2) => el2.id === el.id)`. -/
def keepAt (self : List DetailedEntry) (i : Nat) (el : DetailedEntry) : Bool :=
  self.findIdx (fun el2 => el2.id == el.id) == i

/-- Walk of JS `Array.prototype.filter((el, index, self) => ...)` over the
suffix starting at index `i`, with `self` the whole original array. -/
def dedupGo (self : List DetailedEntry) : Nat → List DetailedEntry → List DetailedEntry
  | _, [] => []
  | i, el :: rest =>
    if keepAt self i el then el :: dedupGo self (i + 1) rest
    else dedupGo self (i + 1) rest

/-- `data.filter((el, index, self) => index === self.findIndex((el2) => el2.id === el.id))`
from `getDetailedReport` (ApiManager.ts lines 191-194). -/
def dedupById (self : List DetailedEntry) : List DetailedEntry :=
  dedupGo self 0 self

/-- `TogglAPI.getDetailedReport` (ApiManager.ts lines 169-197), as a function
of the combined page data returned by `reports.detailsAll` through the queue.
Mirrors the code's order of operations: `total_count` and `total_grand` are
computed from the raw combined pages, and only afterwards is `data` replaced
by its deduplication. -/
def getDetailedReport (fetched : List DetailedEntry) : ReportDetailed :=
  let total_count := fetched.length
  let total_grand := fetched.foldl (fun acc curr => acc + curr.dur) 0
  let data := dedupById fetched
  { total_count := total_count, total_grand := total_grand, data := data }

/-- Dedup as the spec words it: scan the sequence and retain only the first
record encountered for each distinct `id`, preserving the relative order of
those first occurrences (later records with an already-seen `id` are
dropped). Stated independently of the source, for the refinement proof. -/
def firstOccurrenceDedup : List DetailedEntry → List DetailedEntry
  | [] => []
  | e :: t => e :: firstOccurrenceDedup (t.filter (fun x => x.id ≠ e.id))
  termination_by l => l.length
  decreasing_by
    simp only [List.length_cons]
    exact Nat.lt_succ_of_le (List.length_filter_le _ _)

theorem dedupGo_cons_shift (e : DetailedEntry) (t : List DetailedEntry) :
    ∀ (rest : List DetailedEntry) (i : Nat),
      dedupGo (e :: t) (i + 1) rest =
        (dedupGo t i rest).filter (fun x => !(x.id == e.id)) := by
  intro rest
  induction rest with
  | nil => intro i; simp [dedupGo]
  | cons x xs ih =>
    intro i
    by_cases hx : x.id = e.id
    · have hkeep : keepAt (e :: t) (i + 1) x = false := by
        simp [keepAt, List.findIdx_cons, hx]
      by_cases hk : keepAt t i x
      · simp [dedupGo, hkeep, hk, hx, ih]
      · simp [dedupGo, hkeep, hk, ih]
    · have hkeep : keepAt (e :: t) (i + 1) x = keepAt t i x := by
        simp only [keepAt, List.findIdx_cons]
        have : (e.id == x.id) = false := by
          simp
          exact fun h => hx h.symm
        simp only [this, cond_false]
        simp
      by_cases hk : keepAt t i x
      · simp [dedupGo, hkeep, hk, hx, ih]
      · simp [dedupGo, hkeep, hk, ih]

theorem dedupById_cons (e : DetailedEntry) (t : List DetailedEntry) :
    dedupById (e :: t) = e :: (dedupById t).filter (fun x => !(x.id == e.id)) := by
  have hkeep : keepAt (e :: t) 0 e = true := by
    simp [keepAt, List.findIdx_cons]
  simp only [dedupById, dedupGo, hkeep, if_true]
  exact congrArg (e :: ·) (dedupGo_cons_shift e t t 0)

theorem dedupById_filter_comm (a : Nat) :
    ∀ (t : List DetailedEntry),
      (dedupById t).filter (fun x => !(x.id == a)) =
        dedupById (t.filter (fun x => !(x.id == a))) := by
  intro t
  induction t with
  | nil => simp [dedupById, dedupGo]
  | cons e t ih =>
    by_cases he : e.id = a
    · rw [dedupById_cons]
      have hfe : (fun x => !(x.id == a)) e = false := by simp [he]
      rw [List.filter_cons_of_neg (by simpa using hfe)]
      rw [List.filter_cons_of_neg (by simpa using hfe)]
      rw [List.filter_filter]
      have hpred : (fun (x : DetailedEntry) => !(x.id == a) && !(x.id == e.id)) =
          (fun (x : DetailedEntry) => !(x.id == a)) := by
        funext x
        by_cases hx : x.id = a <;> simp [hx, he]
      rw [hpred, ih]
    · rw [dedupById_cons]
      have hfe : (fun x => !(x.id == a)) e = true := by simp [he]
      rw [List.filter_cons_of_pos (by simpa using hfe)]
      rw [List.filter_cons_of_pos (by simpa using hfe)]
      rw [List.filter_filter, dedupById_cons, ← ih, List.filter_filter]
      have hcomm : (fun (x : DetailedEntry) => !(x.id == e.id) && !(x.id == a)) =
          (fun (x : DetailedEntry) => !(x.id == a) && !(x.id == e.id)) := by
        funext x
        exact Bool.and_comm _ _
      rw [hcomm]

theorem dedupById_eq_firstOccurrenceDedup :
    ∀ (l : List DetailedEntry), dedupById l = firstOccurrenceDedup l := by
  intro l
  induction l using firstOccurrenceDedup.induct with
  | case1 => simp [dedupById, dedupGo, firstOccurrenceDedup]
  | case2 e t ih =>
    rw [dedupById_cons, firstOccurrenceDedup]
    have hsame : (fun (x : DetailedEntry) => !(x.id == e.id)) =
        (fun (x : DetailedEntry) => decide (x.id ≠ e.id)) := by
      funext x
      by_cases hx : x.id = e.id <;> simp [hx]
    rw [dedupById_filter_comm, hsame]
    exact congrArg (e :: ·) ih

theorem mem_firstOccurrenceDedup :
    ∀ (l : List DetailedEntry) (x : DetailedEntry),
      x ∈ firstOccurrenceDedup l → x ∈ l := by
  intro l
  induction l using firstOccurrenceDedup.induct with
  | case1 => intro x hx; simp [firstOccurrenceDedup] at hx
  | case2 e t ih =>
    intro x hx
    rw [firstOccurrenceDedup] at hx
    rcases List.mem_cons.mp hx with h | h
    · exact h ▸ List.mem_cons_self _ _
    · exact List.mem_cons_of_mem _ (List.mem_of_mem_filter (ih x h))

theorem nodup_ids_firstOccurrenceDedup :
    ∀ (l : List DetailedEntry), ((firstOccurrenceDedup l).map (·.id)).Nodup := by
  intro l
  induction l using firstOccurrenceDedup.induct with
  | case1 => simp [firstOccurrenceDedup]
  | case2 e t ih =>
    rw [firstOccurrenceDedup]
    simp only [List.map_cons, List.nodup_cons]
    refine ⟨?_, ih⟩
    intro hmem
    rcases List.mem_map.mp hmem with ⟨y, hy, hyid⟩
    have hyt := mem_firstOccurrenceDedup _ y hy
    have := List.of_mem_filter hyt
    simp only [decide_eq_true_eq] at this
    exact this hyid

/-- The fields of the raw current-time-entry object returned by the Toggl API
that `TogglService` reads: `id`, `description`, `pid`, `start`, `stop`,
`duration`, `tags`, `wid`. Absent (`undefined`/`null`) values are `none`. -/
structure TimeEntryJS where
  id : Nat
  description : Option String
  pid : Option Nat
  start : String
  stop : Option String
  duration : Int
  tags : Option (List String)
  wid : Nat
  deriving DecidableEq, Repr

/-- The `ApiStatus` enum (ApiManager.ts lines 241-246). -/
inductive ApiStatus where
  | AVAILABLE
  | NO_TOKEN
  | UNREACHABLE
  | UNTESTED
  deriving DecidableEq, Repr

/-- `isTagsChanged` (ApiManager.ts lines 590-603): `old_tags || []` and
`new_tags || []` replace an absent array by the empty one (a present array,
even empty, is truthy in JS and kept); then the lengths are compared and each
old tag is looked up in the new list (`indexOf < 0`). -/
def isTagsChanged (old_tags new_tags : Option (List String)) : Bool :=
  let old_tags := old_tags.getD []
  let new_tags := new_tags.getD []
  if old_tags.length != new_tags.length then
    true
  else if old_tags.any (fun tag => !(new_tags.contains tag)) then
    true
  else
    false

/-- The outcome of one reconciliation comparison. The four non-`Unchanged`
constructors correspond to the four `console.debug` cases of
`updateCurrentTimer` (Case 1 no timer -> active timer; Case 2 old timer ->
new timer (new ID); Case 3 timer details update (same ID); Case 4 active
timer -> no timer); the spec names them Started, Switched, Updated, Stopped. -/
inductive ChangeKind where
  | Unchanged
  | Started
  | Switched
  | Updated
  | Stopped
  deriving DecidableEq, Repr

/-- The branch structure of `updateCurrentTimer` (ApiManager.ts lines
412-441) that decides the `changed` flag, with each branch tagged by its
case. `changed == true` in the code corresponds exactly to a
non-`Unchanged` result here. -/
def classify (prev curr : Option TimeEntryJS) : ChangeKind :=
  match curr, prev with
  | some _, none => ChangeKind.Started
  | some c, some p =>
    if p.id != c.id then ChangeKind.Switched
    else if p.description != c.description || p.pid != c.pid
        || p.start != c.start || isTagsChanged p.tags c.tags then
      ChangeKind.Updated
    else ChangeKind.Unchanged
  | none, some _ => ChangeKind.Stopped
  | none, none => ChangeKind.Unchanged

/-- The `changed` boolean computed by `updateCurrentTimer`. -/
def changedFlag (prev curr : Option TimeEntryJS) : Bool :=
  classify prev curr != ChangeKind.Unchanged

/-- The cross-workspace drop in `updateCurrentTimer` (ApiManager.ts lines
402-410): `if (curr != null && curr.wid != this.workspaceId && curr.pid !=
undefined) curr = null`. JS loose inequality coerces the configured
workspace-id string to a number, so both sides are `Nat`; `curr.pid !=
undefined` is loose, so it holds exactly when `pid` is present. -/
def dropOtherWorkspaceTimer (workspaceId : Nat) (curr : Option TimeEntryJS) :
    Option TimeEntryJS :=
  match curr with
  | some c => if c.wid != workspaceId && c.pid.isSome then none else some c
  | none => none

/-- JS truthiness of an optional string field: absent or empty is falsy. -/
def jsTruthyString (s : Option String) : Bool :=
  match s with
  | none => false
  | some str => str != ""

/-- `getTimerDuration` (ApiManager.ts lines 487-494). The wall clock read
`Math.round(new Date().getTime() / 1000)` is passed in as `epoch_time`. -/
def getTimerDuration (epoch_time : Int) (timeEntry : TimeEntryJS) : Int :=
  if jsTruthyString timeEntry.stop then timeEntry.duration
  else epoch_time + timeEntry.duration

/-- The `TogglService` state touched by the claims: the `_ApiAvailable`
status, the held `_currentTimeEntry` snapshot, and whether the polling
interval is installed (`_currentTimerInterval`). -/
structure ServiceState where
  status : ApiStatus
  currentTimeEntry : Option TimeEntryJS
  pollingActive : Bool
  deriving DecidableEq, Repr

/-- The `isApiAvailable` getter (ApiManager.ts lines 540-545). -/
def isApiAvailable (st : ServiceState) : Bool :=
  st.status == ApiStatus.AVAILABLE

/-- Observable side effects of the service operations. `storeCurrentTimer`
is `currentTimer.set` (the code stores the entry projected through
`responseToTimeEntry`, a per-field renaming that also attaches the cached
project name; the underlying entry is the same and the projection is not
read by any claim); `refetchDailySummary` is the fire-and-forget
`getDailySummary().then(dailySummary.set)`; `statusBarRefresh` is
`updateStatusBarText()`; `remoteStopCall` is `_apiManager.stopTimer(id)`;
`pollAgain` is the `.then(() => this.updateCurrentTimer())` continuation. -/
inductive Effect where
  | logError
  | storeCurrentTimer (entry : Option TimeEntryJS)
  | refetchDailySummary
  | statusBarRefresh
  | notice (msg : String)
  | remoteStopCall (entryId : Nat)
  | pollAgain
  deriving DecidableEq, Repr

/-- `noticeAPINotAvailable` (ApiManager.ts lines 506-517): a distinct notice
for `NO_TOKEN` and `UNREACHABLE`, silence otherwise. -/
def noticeAPINotAvailable (status : ApiStatus) : List Effect :=
  match status with
  | ApiStatus.NO_TOKEN =>
    [Effect.notice "No Toggl Track API token is set."]
  | ApiStatus.UNREACHABLE =>
    [Effect.notice "The Toggl Track API is unreachable. Either the Toggl services are down, or your API token is incorrect."]
  | _ => []

/-- One reconciliation pass: `updateCurrentTimer` (ApiManager.ts lines
387-456) as a function of the state, the configured workspace id, and the
outcome of the awaited `getCurrentTimer()` fetch (`Except` for a rejected
promise, caught by the try/catch). -/
def updateCurrentTimer (st : ServiceState) (workspaceId : Nat)
    (fetchResult : Except String (Option TimeEntryJS)) :
    ServiceState × List Effect :=
  if !(isApiAvailable st) then (st, [])
  else
    match fetchResult with
    | Except.error _ => (st, [Effect.logError])
    | Except.ok fetched =>
      let prev := st.currentTimeEntry
      let curr := dropOtherWorkspaceTimer workspaceId fetched
      let changeEffects :=
        if changedFlag prev curr then
          [Effect.storeCurrentTimer curr, Effect.refetchDailySummary]
        else []
      ({ st with currentTimeEntry := curr },
        changeEffects ++ [Effect.statusBarRefresh])

/-- `TogglService.stopTimer` (ApiManager.ts lines 363-373):
`executeIfAPIAvailable` around the null-guarded remote stop of the held
entry. The method itself mutates no field; the held snapshot changes only
later, through the `updateCurrentTimer` continuation (`pollAgain`). -/
def stopTimerService (st : ServiceState) : ServiceState × List Effect :=
  if isApiAvailable st then
    match st.currentTimeEntry with
    | some entry => (st, [Effect.remoteStopCall entry.id, Effect.pollAgain])
    | none => (st, [])
  else
    (st, noticeAPINotAvailable st.status)

/-- The observable outcome of `TogglService.setToken`. -/
structure SetTokenOutcome where
  status : ApiStatus
  pollingStarted : Bool
  notices : List Effect
  deriving DecidableEq, Repr

/-- `TogglService.setToken` (ApiManager.ts lines 280-303) as a function of
the token and of whether the connectivity probe (`TogglAPI.setToken`, which
awaits `testConnection`) would succeed. The call
`this._apiManager.setToken(token)` is not awaited: the promise it returns
rejects asynchronously when the probe fails, so the rejection never reaches
the enclosing try/catch, the `catch` branch that would set `UNREACHABLE`
and emit a notice is unreachable from the probe, and the success path
completes regardless of `probeSucceeds`. -/
def setTokenService (token : Option String) (probeSucceeds : Bool) :
    SetTokenOutcome :=
  if token.isSome && token != some "" then
    { status := ApiStatus.AVAILABLE
      pollingStarted := true
      notices := [] }
  else
    { status := ApiStatus.NO_TOKEN
      pollingStarted := false
      notices := noticeAPINotAvailable ApiStatus.NO_TOKEN }

/-- Modelled from the spec: the serializing request queue (class `ApiQueue`,
imported by `TogglAPI` from `./ApiQueue`, is not among the provided
sources). Spec section 4.1: operations run strictly one at a time, in FIFO
submission order; a later-submitted operation never begins before every
earlier one's promise has settled; failure of one operation does not block
the rest, and each caller receives its own settled promise. An execution
trace event: operation `i` begins, or operation `i` settles with outcome
`ok` (`true` fulfilled, `false` rejected). -/
inductive QueueEvent where
  | begins (i : Nat)
  | settles (i : Nat) (ok : Bool)
  deriving DecidableEq, Repr

/-- Modelled from the spec: the trace of draining the queue starting at
submission index `i`, each submitted operation represented by its settled
outcome. Each operation begins, then settles, before the next begins. -/
def runQueueFrom (i : Nat) : List Bool → List QueueEvent
  | [] => []
  | outcome :: rest =>
    QueueEvent.begins i :: QueueEvent.settles i outcome :: runQueueFrom (i + 1) rest

/-- Modelled from the spec: the full trace of a queue drain over the
submitted operations in submission order. -/
def runQueue (ops : List Bool) : List QueueEvent :=
  runQueueFrom 0 ops

/-- A sample running entry of workspace 1 with a project. -/
def sampleEntryA : TimeEntryJS :=
  { id := 1, description := some "write report", pid := some 10
    start := "2023-11-14T10:00:00Z", stop := none, duration := -1700000000
    tags := some ["work"], wid := 1 }

/-- A sample running entry of workspace 1 with a different id. -/
def sampleEntryB : TimeEntryJS :=
  { id := 2, description := some "write report", pid := some 10
    start := "2023-11-14T10:00:00Z", stop := none, duration := -1700000000
    tags := some ["work"], wid := 1 }

/-- A fetched timer of a foreign workspace (wid 2) with no project. -/
def projectlessMismatchEntry : TimeEntryJS :=
  { id := 7, description := some "other workspace", pid := none
    start := "2023-11-14T10:00:00Z", stop := none, duration := -1700000000
    tags := none, wid := 2 }

/-- C1. The claim states that deduplication by id is applied before the
totals are computed, so that `total_count` equals the length of the
deduplicated data and `total_grand` the sum over deduplicated records only.
The code computes both totals from the raw combined pages and only then
deduplicates `data`: on the duplicated input `[(id 1, dur 10), (id 1, dur
10)]` the returned report has one data record but `total_count = 2` and
`total_grand = 20`, inflated by the duplicate. -/
theorem getDetailedReport_totals_computed_before_dedup :
    (getDetailedReport [⟨1, 10⟩, ⟨1, 10⟩]).data = [⟨1, 10⟩] ∧
    (getDetailedReport [⟨1, 10⟩, ⟨1, 10⟩]).data.length = 1 ∧
    (getDetailedReport [⟨1, 10⟩, ⟨1, 10⟩]).total_count = 2 ∧
    (getDetailedReport [⟨1, 10⟩, ⟨1, 10⟩]).total_grand = 20 := by
  refine ⟨?_, ?_, ?_, ?_⟩ <;> decide

/-- C2 counterexample. The claim states that a fetched timer whose
workspace differs from the configured one is treated as `current == null`
regardless of whether it has a project assigned. The filter condition also
requires `curr.pid != undefined`, so a mismatched-workspace timer without a
project is passed through unchanged and is classified as a started timer,
not as absence of a timer. -/
theorem dropOtherWorkspaceTimer_projectless_not_dropped :
    projectlessMismatchEntry.wid ≠ 1 ∧
    dropOtherWorkspaceTimer 1 (some projectlessMismatchEntry) =
      some projectlessMismatchEntry ∧
    dropOtherWorkspaceTimer 1 (some projectlessMismatchEntry) ≠ none ∧
    classify none (dropOtherWorkspaceTimer 1 (some projectlessMismatchEntry)) =
      ChangeKind.Started := by
  refine ⟨?_, ?_, ?_, ?_⟩ <;> decide

/-- C2 amended. A fetched timer is treated as `current == null` exactly
when its workspace differs from the configured one AND it has a project
assigned (`pid` present); a mismatched timer without a project, or a timer
of the configured workspace, is passed to classification unchanged. -/
theorem dropOtherWorkspaceTimer_drops_iff_project_present :
    ∀ (workspaceId : Nat) (c : TimeEntryJS),
      (c.wid ≠ workspaceId → c.pid.isSome = true →
        dropOtherWorkspaceTimer workspaceId (some c) = none) ∧
      (c.wid = workspaceId ∨ c.pid = none →
        dropOtherWorkspaceTimer workspaceId (some c) = some c) := by
  intro workspaceId c
  constructor
  · intro hw hp
    simp [dropOtherWorkspaceTimer, hw, hp]
  · intro h
    rcases h with h | h
    · simp [dropOtherWorkspaceTimer, h]
    · simp [dropOtherWorkspaceTimer, h]

theorem dropOtherWorkspaceTimer_drops_iff_project_present_witness :
    dropOtherWorkspaceTimer 2 (some sampleEntryA) = none ∧
    dropOtherWorkspaceTimer 1 (some projectlessMismatchEntry) =
      some projectlessMismatchEntry :=
  ⟨(dropOtherWorkspaceTimer_drops_iff_project_present 2 sampleEntryA).1
      (by decide) (by decide),
   (dropOtherWorkspaceTimer_drops_iff_project_present 1
      projectlessMismatchEntry).2 (Or.inr (by decide))⟩

/-- C5. After assembly, the report data is exactly the first-occurrence
deduplication of the raw fetched sequence: for each distinct id only the
first record encountered is retained, relative order of first occurrences
is preserved, and no two records of the result share an id. -/
theorem getDetailedReport_data_first_occurrence_dedup :
    ∀ (fetched : List DetailedEntry),
      (getDetailedReport fetched).data = firstOccurrenceDedup fetched ∧
      (((getDetailedReport fetched).data).map (·.id)).Nodup := by
  intro fetched
  have hdata : (getDetailedReport fetched).data = dedupById fetched := rfl
  constructor
  · rw [hdata]
    exact dedupById_eq_firstOccurrenceDedup fetched
  · rw [hdata, dedupById_eq_firstOccurrenceDedup fetched]
    exact nodup_ids_firstOccurrenceDedup fetched

theorem isTagsChanged_eq_true_iff (o n : Option (List String)) :
    isTagsChanged o n = true ↔
      ¬ ((o.getD []).length = (n.getD []).length ∧
          ∀ t ∈ o.getD [], t ∈ n.getD []) := by
  simp only [isTagsChanged]
  by_cases hlen : (o.getD []).length = (n.getD []).length
  · rw [if_neg (by simp [hlen])]
    by_cases hany : (o.getD []).any (fun tag => !((n.getD []).contains tag)) = true
    · rw [if_pos hany]
      refine Iff.intro (fun _ hcon => ?_) (fun _ => rfl)
      rcases List.any_eq_true.mp hany with ⟨t, ht, hnt⟩
      simp only [Bool.not_eq_eq_eq_not, Bool.not_true] at hnt
      simp at hnt
      exact hnt (hcon.2 t ht)
    · rw [if_neg hany]
      refine Iff.intro (fun hff => absurd hff (by simp)) (fun hneg => ?_)
      exact absurd ⟨hlen, fun t ht => by
        by_contra hmem
        exact hany (List.any_eq_true.mpr
          ⟨t, ht, by simp; exact hmem⟩)⟩ hneg
  · rw [if_pos (by simpa using hlen)]
    exact Iff.intro (fun _ hcon => hlen hcon.1) (fun _ => rfl)

/-- C4. The classification follows the ordered rules exactly: both
snapshots absent is Unchanged with no change flagged; previous absent with
current present is Started (flagged); current absent with previous present
is Stopped (flagged); differing ids is Switched (flagged) regardless of
other fields; with equal ids the change flag is set, and the result is
Updated, exactly when description, projectId, start, or the tag sets
differ, tag comparison being order-insensitive set equality (same
cardinality and every previous tag present in current). -/
theorem classify_ordered_rules :
    (classify none none = ChangeKind.Unchanged ∧ changedFlag none none = false) ∧
    (∀ c, classify none (some c) = ChangeKind.Started ∧
      changedFlag none (some c) = true) ∧
    (∀ p, classify (some p) none = ChangeKind.Stopped ∧
      changedFlag (some p) none = true) ∧
    (∀ p c : TimeEntryJS, p.id ≠ c.id →
      classify (some p) (some c) = ChangeKind.Switched ∧
      changedFlag (some p) (some c) = true) ∧
    (∀ p c : TimeEntryJS, p.id = c.id →
      ((changedFlag (some p) (some c) = true ↔
          classify (some p) (some c) = ChangeKind.Updated) ∧
        (classify (some p) (some c) = ChangeKind.Updated ↔
          (p.description ≠ c.description ∨ p.pid ≠ c.pid ∨ p.start ≠ c.start ∨
            ¬ ((p.tags.getD []).length = (c.tags.getD []).length ∧
                ∀ t ∈ p.tags.getD [], t ∈ c.tags.getD []))))) := by
  refine ⟨⟨rfl, rfl⟩, fun c => ⟨rfl, rfl⟩, fun p => ⟨rfl, rfl⟩, ?_, ?_⟩
  · intro p c hid
    have hbne : (p.id != c.id) = true := by simpa using hid
    constructor
    · simp [classify, hbne]
    · simp [changedFlag, classify, hbne]
  · intro p c hid
    have hbne : (p.id != c.id) = false := by simpa using hid
    by_cases hcond : (p.description != c.description || p.pid != c.pid
        || p.start != c.start || isTagsChanged p.tags c.tags) = true
    · have hcls : classify (some p) (some c) = ChangeKind.Updated := by
        simp only [classify, hbne, Bool.false_eq_true, if_false]
        rw [if_pos hcond]
      refine ⟨by simp [changedFlag, hcls], ?_⟩
      simp only [hcls, true_iff]
      simp only [Bool.or_eq_true, bne_iff_ne, ne_eq,
        isTagsChanged_eq_true_iff] at hcond
      tauto
    · have hcls : classify (some p) (some c) = ChangeKind.Unchanged := by
        simp only [classify, hbne, Bool.false_eq_true, if_false]
        rw [if_neg hcond]
      refine ⟨by simp [changedFlag, hcls], ?_⟩
      simp only [hcls]
      constructor
      · intro h
        exact absurd h (by simp)
      · intro h
        exfalso
        apply hcond
        simp only [Bool.or_eq_true, bne_iff_ne, ne_eq,
          isTagsChanged_eq_true_iff]
        tauto

theorem classify_ordered_rules_witness :
    classify (some sampleEntryA) (some sampleEntryB) = ChangeKind.Switched ∧
    classify (some sampleEntryA) (some sampleEntryA) = ChangeKind.Unchanged :=
  ⟨(classify_ordered_rules.2.2.2.1 sampleEntryA sampleEntryB (by decide)).1,
   by
    have h := (classify_ordered_rules.2.2.2.2 sampleEntryA sampleEntryA rfl).2
    rcases hcls : classify (some sampleEntryA) (some sampleEntryA) with _ | _ | _ | _ | _
    · rfl
    all_goals
      exfalso
      revert hcls
      decide⟩

/-- A stopped entry with a literal duration of 3600 seconds. -/
def stoppedProbeEntry : TimeEntryJS :=
  { id := 3, description := none, pid := none
    start := "2023-11-14T10:00:00Z", stop := some "2023-11-14T11:00:00Z"
    duration := 3600, tags := none, wid := 1 }

/-- Service state with the API available and no held entry. -/
def availableIdleState : ServiceState :=
  { status := ApiStatus.AVAILABLE, currentTimeEntry := none
    pollingActive := true }

/-- Service state with the API available and a held running entry. -/
def availableRunningState : ServiceState :=
  { status := ApiStatus.AVAILABLE, currentTimeEntry := some sampleEntryA
    pollingActive := true }

/-- An entry whose tags field is absent. -/
def tagsAbsentEntry : TimeEntryJS :=
  { id := 9, description := some "same", pid := some 4
    start := "2023-11-14T12:00:00Z", stop := none, duration := -1700000000
    tags := none, wid := 1 }

/-- The same entry with an empty tags array instead of an absent one. -/
def tagsEmptyEntry : TimeEntryJS :=
  { id := 9, description := some "same", pid := some 4
    start := "2023-11-14T12:00:00Z", stop := none, duration := -1700000000
    tags := some [], wid := 1 }

/-- C3. The claim states that a failing connectivity probe during
`TogglService.setToken` with a non-empty token yields `UNREACHABLE` plus a
user notice, and `AVAILABLE` with polling only on probe success. The code
calls `this._apiManager.setToken(token)` without awaiting it, so the
probe's rejection never reaches the try/catch: with a non-empty token and
a failing probe the status still becomes `AVAILABLE`, polling starts, and
no notice is emitted. -/
theorem setToken_probe_failure_still_available :
    setTokenService (some "abc123") false =
      { status := ApiStatus.AVAILABLE, pollingStarted := true, notices := [] } ∧
    (setTokenService (some "abc123") false).status ≠ ApiStatus.UNREACHABLE ∧
    (setTokenService (some "abc123") false).notices = [] := by
  refine ⟨?_, ?_, ?_⟩ <;> decide

/-- C6. Timer duration uses the dual encoding: for a running entry (`stop`
unset) the elapsed duration is the current wall-clock epoch seconds plus
the stored duration encoding; for a stopped entry (a non-empty `stop`
timestamp) the stored value is returned literally. -/
theorem getTimerDuration_dual_encoding :
    ∀ (epoch_time : Int) (t : TimeEntryJS),
      (t.stop = none →
        getTimerDuration epoch_time t = epoch_time + t.duration) ∧
      (∀ s, t.stop = some s → s ≠ "" →
        getTimerDuration epoch_time t = t.duration) := by
  intro epoch_time t
  constructor
  · intro h
    simp [getTimerDuration, jsTruthyString, h]
  · intro s hs hne
    simp [getTimerDuration, jsTruthyString, hs, hne]

theorem getTimerDuration_dual_encoding_witness :
    getTimerDuration 1700000100 sampleEntryA = 100 ∧
    getTimerDuration 1700000100 stoppedProbeEntry = 3600 := by
  constructor
  · have h := (getTimerDuration_dual_encoding 1700000100 sampleEntryA).1 rfl
    rw [h]
    decide
  · have h := (getTimerDuration_dual_encoding 1700000100 stoppedProbeEntry).2
      "2023-11-14T11:00:00Z" rfl (by decide)
    rw [h]
    decide

/-- C7. When the awaited `getCurrentTimer()` fetch rejects during a poll
tick while the API is available, the tick is skipped atomically: the error
is only logged, no notice is emitted, no timer-changed store write and no
summary refetch happen, the held previous snapshot and the rest of the
state (including the installed polling interval) are unchanged. -/
theorem updateCurrentTimer_fetch_failure_skips_tick :
    ∀ (st : ServiceState) (workspaceId : Nat) (err : String),
      isApiAvailable st = true →
      updateCurrentTimer st workspaceId (Except.error err) =
        (st, [Effect.logError]) := by
  intro st workspaceId err h
  simp [updateCurrentTimer, h]

theorem updateCurrentTimer_fetch_failure_skips_tick_witness :
    updateCurrentTimer availableRunningState 1 (Except.error "ECONNRESET") =
      (availableRunningState, [Effect.logError]) :=
  updateCurrentTimer_fetch_failure_skips_tick availableRunningState 1
    "ECONNRESET" (by decide)

/-- C9. In the tag comparison an absent tag list is replaced by the empty
list, so comparing an absent list with a present one behaves exactly like
comparing empty lists; in particular two snapshots with equal id,
description, project and start, one with `tags` undefined and the other
with an empty array, classify as Unchanged. -/
theorem isTagsChanged_absent_treated_as_empty :
    (∀ x, isTagsChanged none x = isTagsChanged (some []) x) ∧
    (∀ x, isTagsChanged x none = isTagsChanged x (some [])) ∧
    (∀ p c : TimeEntryJS, p.id = c.id → p.description = c.description →
      p.pid = c.pid → p.start = c.start → p.tags = none → c.tags = some [] →
      classify (some p) (some c) = ChangeKind.Unchanged) := by
  refine ⟨fun x => rfl, fun x => rfl, ?_⟩
  intro p c hid hdesc hpid hstart hpt hct
  simp [classify, hid, hdesc, hpid, hstart, hpt, hct, isTagsChanged]

theorem isTagsChanged_absent_treated_as_empty_witness :
    classify (some tagsAbsentEntry) (some tagsEmptyEntry) =
      ChangeKind.Unchanged :=
  isTagsChanged_absent_treated_as_empty.2.2 tagsAbsentEntry tagsEmptyEntry
    rfl rfl rfl rfl rfl rfl

/-- C10. With the API available and no held current entry,
`TogglService.stopTimer` is a no-op: no remote stop call, no notice, no
state change; with a held entry, the remote stop call is issued with that
entry's id (followed by the reconciliation continuation). -/
theorem stopTimer_noop_without_held_entry :
    ∀ (st : ServiceState),
      st.status = ApiStatus.AVAILABLE →
      ((st.currentTimeEntry = none → stopTimerService st = (st, [])) ∧
       (∀ e, st.currentTimeEntry = some e →
         stopTimerService st =
           (st, [Effect.remoteStopCall e.id, Effect.pollAgain]))) := by
  intro st hst
  have hav : isApiAvailable st = true := by simp [isApiAvailable, hst]
  constructor
  · intro hnone
    simp [stopTimerService, hav, hnone]
  · intro e he
    simp [stopTimerService, hav, he]

theorem stopTimer_noop_without_held_entry_witness :
    stopTimerService availableIdleState = (availableIdleState, []) ∧
    stopTimerService availableRunningState =
      (availableRunningState,
        [Effect.remoteStopCall sampleEntryA.id, Effect.pollAgain]) :=
  ⟨(stopTimer_noop_without_held_entry availableIdleState rfl).1 rfl,
   (stopTimer_noop_without_held_entry availableRunningState rfl).2
     sampleEntryA rfl⟩

theorem runQueueFrom_length :
    ∀ (ops : List Bool) (i0 : Nat),
      (runQueueFrom i0 ops).length = 2 * ops.length := by
  intro ops
  induction ops with
  | nil => intro i0; simp [runQueueFrom]
  | cons b rest ih =>
    intro i0
    simp only [runQueueFrom, List.length_cons, ih]
    omega

theorem runQueueFrom_getElem :
    ∀ (ops : List Bool) (i0 k : Nat), k < ops.length →
      (runQueueFrom i0 ops)[2 * k]? = some (QueueEvent.begins (i0 + k)) ∧
      (runQueueFrom i0 ops)[2 * k + 1]? =
        some (QueueEvent.settles (i0 + k) (ops.getD k false)) := by
  intro ops
  induction ops with
  | nil => intro i0 k h; exact absurd h (Nat.not_lt_zero k)
  | cons b rest ih =>
    intro i0 k hk
    cases k with
    | zero => simp [runQueueFrom]
    | succ k' =>
      have hk' : k' < rest.length := Nat.lt_of_succ_lt_succ hk
      have h2 : 2 * (k' + 1) = 2 * k' + 1 + 1 := by omega
      have hrec := ih (i0 + 1) k' hk'
      constructor
      · rw [h2]
        simp only [runQueueFrom, List.getElem?_cons_succ]
        rw [hrec.1]
        congr 2
        omega
      · rw [h2]
        simp only [runQueueFrom, List.getElem?_cons_succ, List.getD_cons_succ]
        rw [hrec.2]
        congr 2
        omega

/-- C8 (modelled from the spec; the `ApiQueue` source is not among the
provided files). In the drain trace of a queue of submitted operations,
trace positions are fully determined: operation `k` begins at position
`2k` and settles at position `2k + 1` with its own outcome, and the trace
has no other events. Hence for `i < j` the settle of operation `i` (at
`2i + 1`) precedes the begin of operation `j` (at `2j`): execution is
strictly serialized in FIFO submission order, a rejected operation settles
like any other without blocking the rest, and every submitted operation
receives its own settled outcome. -/
theorem runQueue_fifo_serialized :
    ∀ (ops : List Bool),
      (runQueue ops).length = 2 * ops.length ∧
      (∀ k, k < ops.length →
        (runQueue ops)[2 * k]? = some (QueueEvent.begins k) ∧
        (runQueue ops)[2 * k + 1]? =
          some (QueueEvent.settles k (ops.getD k false))) ∧
      (∀ i j : Nat, i < j → 2 * i + 1 < 2 * j) := by
  intro ops
  refine ⟨runQueueFrom_length ops 0, fun k hk => ?_, fun i j hij => by omega⟩
  have h := runQueueFrom_getElem ops 0 k hk
  simpa [runQueue] using h

theorem runQueue_fifo_serialized_witness :
    (runQueue [true, false, true]).length = 6 ∧
    (runQueue [true, false, true])[2 * 1]? = some (QueueEvent.begins 1) ∧
    (runQueue [true, false, true])[2 * 1 + 1]? =
      some (QueueEvent.settles 1 false) :=
  ⟨(runQueue_fifo_serialized [true, false, true]).1,
   ((runQueue_fifo_serialized [true, false, true]).2.1 1 (by decide)).1,
   ((runQueue_fifo_serialized [true, false, true]).2.1 1 (by decide)).2⟩

end Toggl
